import Mathlib

/-!
# Verification of the stock-viewer dashboard core

Shallow embedding of `src/dashboard/time_filtering.py` and the reactive
wiring in `src/main.py`.

Modelling conventions:
* A pandas `Timestamp` is an integer number of seconds since the epoch
  (the data is at second granularity or coarser).  A Python
  `datetime.date` is an integer day number; `Timestamp.date()` is floor
  division by 86400, which matches the Python calendar arithmetic for any
  epoch-based timestamp.
* A dataframe row is a `Row`: the timestamp index plus the five numeric
  columns `open, high, low, close, volume` (named `op hi lo cl vol`
  because `open` is a Lean keyword).  Numeric values are rationals.
* `df.sort_index()` is a stable ascending sort on the timestamp.
* `df.loc[a:b]` on the sorted index, with `datetime.date` bounds, is the
  contiguous inclusive slice between the *midnight* timestamps of the
  two dates: pandas converts a `date` slice bound to a `Timestamp` at
  00:00 (it does not widen the right bound to the end of the day the
  way a string bound is widened).  On a sorted list this is
  `dropWhile (ts < a)` then `takeWhile (ts ≤ b)`.
* A raised Python exception is `Except.error` with the exception kind.
-/

/-- Seconds per day; `Timestamp.date()` is floor division by this. -/
def DAY : ℤ := 86400

/-- Calendar day number of an epoch timestamp `t`, i.e. `t.date()`.
`/` on `ℤ` is Euclidean division, which for the positive divisor `DAY`
is floor division, as in Python. -/
def dateOf (t : ℤ) : ℤ := t / DAY

/-- One row of a stock dataframe: timestamp index and the columns
`open, high, low, close, volume` of the CSV data. -/
structure Row where
  ts : ℤ
  op : ℚ
  hi : ℚ
  lo : ℚ
  cl : ℚ
  vol : ℚ
deriving DecidableEq, Repr

/-- A row carrying only a timestamp, for concrete test series. -/
def mkRow (t : ℤ) : Row :=
  ⟨t, 0, 0, 0, 0, 0⟩

/-- The four selectable price fields (the `ohlc_options` radio items). -/
inductive OHLC where
  | op
  | hi
  | lo
  | cl
deriving DecidableEq, Repr

/-- Column access `row[ohlc]`. -/
def Row.field (r : Row) : OHLC → ℚ
  | .op => r.op
  | .hi => r.hi
  | .lo => r.lo
  | .cl => r.cl

/-- Comparison of rows by their timestamp index, the order used by
`sort_index()`. -/
def tsLE (a b : Row) : Prop := a.ts ≤ b.ts

instance : DecidableRel tsLE := fun a b => inferInstanceAs (Decidable (a.ts ≤ b.ts))

instance : IsTotal Row tsLE := ⟨fun a b => Int.le_total a.ts b.ts⟩

instance : IsTrans Row tsLE := ⟨fun _ _ _ hab hbc => le_trans hab hbc⟩

/-- Model of `df.sort_index()`: sort the rows ascending by timestamp. -/
def sort_index (df : List Row) : List Row := df.insertionSort tsLE

/-- Model of `df.loc[a:b]` on a timestamp-sorted dataframe, with both bounds
already converted to timestamps: the contiguous inclusive slice. -/
def locSlice (a b : ℤ) (df : List Row) : List Row :=
  (df.dropWhile (fun r => decide (r.ts < a))).takeWhile (fun r => decide (r.ts ≤ b))

/-- Kinds of Python exception the embedded code can raise.
`indexError` is what `df.index[0]` raises on an empty index and what a
missing dictionary key raises (`KeyError`, folded in here as the
index-lookup failure kind is never compared across the two).
`emptyInputError` is modelled from the spec: spec §7 demands a
defined `EmptyInputError` for empty Range-Filter input; no such type
exists anywhere in the code, the constructor exists only so that this
expectation of the spec can be compared with what the code raises. -/
inductive PyErr where
  | indexError
  | keyError
  | emptyInputError
deriving DecidableEq, Repr

instance {ε α : Type} [DecidableEq ε] [DecidableEq α] : DecidableEq (Except ε α) := fun
  | .error a, .error b =>
    match decEq a b with
    | isTrue h => isTrue (by rw [h])
    | isFalse h => isFalse (by simp [h])
  | .error _, .ok _ => isFalse (by simp)
  | .ok _, .error _ => isFalse (by simp)
  | .ok a, .ok b =>
    match decEq a b with
    | isTrue h => isTrue (by rw [h])
    | isFalse h => isFalse (by simp [h])

/-- Model of `filter_time(df, days)` from `src/dashboard/time_filtering.py`:

    last_day = df.index[0].date()
    start_day = last_day - relativedelta(days=days)
    df = df.sort_index().loc[start_day:last_day]
    return df

`df.index[0]` on an empty frame raises `IndexError`.  The `.loc` slice
bounds are `date` objects, which pandas treats as midnight timestamps,
so the slice keeps timestamps in `[start_day*DAY, last_day*DAY]`. -/
def filter_time (df : List Row) (days : ℤ) : Except PyErr (List Row) :=
  match df with
  | [] => .error .indexError
  | r0 :: _ =>
    let last_day := dateOf r0.ts
    let start_day := last_day - days
    .ok (locSlice (start_day * DAY) (last_day * DAY) (sort_index df))

/-- Model of `filter_time` with the dataframe object of the caller threaded as explicit
state: the body reads the object once; `sort_index()` and `.loc`
both return new objects and the local name `df` is merely rebound, so
nothing is ever written back to the state. -/
def filter_time_prog (days : ℤ) : StateM (List Row) (Except PyErr (List Row)) := do
  let df ← get
  match df with
  | [] => pure (.error .indexError)
  | r0 :: _ =>
    let last_day := dateOf r0.ts
    let start_day := last_day - days
    let df2 := locSlice (start_day * DAY) (last_day * DAY) (sort_index df)
    pure (.ok df2)

/-- The list in `days = {i: day for i, day in enumerate([1,7,30,90,365,5*365])}`
in `filter_df`. -/
def window_days_list : List ℤ := [1, 7, 30, 90, 365, 5 * 365]

/-- Model of `filter_df(stock, time_index)` from `src/main.py`, abstracted over the
`(daily, intraday)` dataframe pair that the ticker lookup `df_dict[stock]`
yields (the CSV loader is not among the sources under review):

    dff_daily, dff_intraday = df_dict[stock]
    dff = dff_intraday if time_index <= 2 else dff_daily
    days = {i: day for i, day in enumerate([1,7,30,90,365,5*365])}
    dff = dff if time_index == 6 else filter_time(dff, days[time_index])
    return dff

The final `.to_json()` serialization step is modelled separately by
`to_json`.  A `time_index` outside the keys of `days` (and not 6)
raises `KeyError`. -/
def filter_df (dff_daily dff_intraday : List Row) (time_index : ℕ) :
    Except PyErr (List Row) :=
  let dff := if time_index ≤ 2 then dff_intraday else dff_daily
  if time_index = 6 then .ok dff
  else
    match window_days_list[time_index]? with
    | none => .error .keyError
    | some d => filter_time dff d

/-- Modelled from the spec: the window mapping `{0:1, 1:7, 2:30, 3:90,
4:365, 5:1825}` stated in §3, written from the words of the spec so it
can be compared with the `enumerate`-built dictionary of the code. -/
def spec_window_days : ℕ → ℤ
  | 0 => 1
  | 1 => 7
  | 2 => 30
  | 3 => 90
  | 4 => 365
  | 5 => 1825
  | _ => 0

/-- Column of the selected field of a dataframe, `dff[ohlc]`. -/
def column (df : List Row) (f : OHLC) : List ℚ := df.map (fun r => r.field f)

/-- Model of `series.max()`: `NaN` (here `none`) on an empty column,
otherwise the running maximum of the values. -/
def seriesMax : List ℚ → Option ℚ
  | [] => none
  | x :: xs => some (xs.foldl max x)

/-- Model of `series.min()`: `NaN` (here `none`) on an empty column,
otherwise the running minimum of the values. -/
def seriesMin : List ℚ → Option ℚ
  | [] => none
  | x :: xs => some (xs.foldl min x)

/-- Rounding to the nearest integer (ties upward), written with the
executable `Rat.floor` so that concrete label values compute. -/
def rnd (x : ℚ) : ℤ := Rat.floor (x + 1 / 2)

/-- The numeric value shown by `f"{x:.1f} $"`: `x` rounded to one decimal
place. -/
def fmt1 (q : ℚ) : ℚ := ((rnd (10 * q) : ℤ) : ℚ) / 10

/-- Model of `highest_lowest_value(json_df, ohlc)` from `src/main.py`, on the
deserialized dataframe: the numeric values of the two labels
`f"{dff[ohlc].max():.1f} $"` and `f"{dff[ohlc].min():.1f} $"`, as the
pair (highest, lowest); `none` when the column is empty (pandas would
format `NaN`). -/
def highest_lowest_value (df : List Row) (f : OHLC) : Option (ℚ × ℚ) :=
  match seriesMax (column df f), seriesMin (column df f) with
  | some m, some n => some (fmt1 m, fmt1 n)
  | _, _ => none

/-- Rounding to ten decimal places: what `DataFrame.to_json` does to every
float with its default `double_precision=10`. -/
def round10 (q : ℚ) : ℚ := ((rnd (q * 10 ^ 10) : ℤ) : ℚ) / 10 ^ 10

/-- One serialized row of the intermediate JSON dataset stored in
`dcc.Store`: the index as an epoch-milliseconds key and the five column
values as the decimals `to_json` printed. -/
structure JRow where
  tms : ℤ
  jop : ℚ
  jhi : ℚ
  jlo : ℚ
  jcl : ℚ
  jvol : ℚ
deriving DecidableEq, Repr

/-- Model of `dff.to_json()`: the timestamp index becomes epoch milliseconds and
every numeric value is written with at most ten decimal places
(`double_precision=10`, the pandas default). -/
def to_json (df : List Row) : List JRow :=
  df.map (fun r =>
    ⟨r.ts * 1000, round10 r.op, round10 r.hi, round10 r.lo, round10 r.cl, round10 r.vol⟩)

/-- Model of `pd.read_json(json_df)`: epoch-millisecond keys are converted back to
timestamps (`convert_axes=True`) and the printed decimals are read back
as numbers. -/
def read_json (j : List JRow) : List Row :=
  j.map (fun c => ⟨c.tms / 1000, c.jop, c.jhi, c.jlo, c.jcl, c.jvol⟩)

/-- A row all of whose numeric values survive ten-decimal-place rounding
unchanged. -/
def dec10 (r : Row) : Prop :=
  round10 r.op = r.op ∧ round10 r.hi = r.hi ∧ round10 r.lo = r.lo ∧
    round10 r.cl = r.cl ∧ round10 r.vol = r.vol

/-! ## Basic facts about the embedded operations -/

lemma DAY_pos : (0 : ℤ) < DAY := by decide

/-- Midnight of the day of `t` is not later than `t`. -/
lemma dateOf_mul_DAY_le (t : ℤ) : dateOf t * DAY ≤ t := by
  simp only [dateOf, DAY]
  omega

/-- Day-number comparison against a timestamp, unfolded to timestamps. -/
lemma le_dateOf_iff {d t : ℤ} : d ≤ dateOf t ↔ d * DAY ≤ t :=
  Int.le_ediv_iff_mul_le DAY_pos

lemma sorted_sort_index (l : List Row) : (sort_index l).Sorted tsLE :=
  List.sorted_insertionSort tsLE l

lemma perm_sort_index (l : List Row) : (sort_index l).Perm l :=
  List.perm_insertionSort tsLE l

lemma mem_sort_index {r : Row} {l : List Row} : r ∈ sort_index l ↔ r ∈ l :=
  (perm_sort_index l).mem_iff

/-- Bridge from the executable rounding to the Mathlib `round`. -/
lemma ratFloor_eq (q : ℚ) : Rat.floor q = ⌊q⌋ := by
  rw [Rat.floor_def', Rat.floor_def]

lemma rnd_eq_round (x : ℚ) : rnd x = round x := by
  rw [rnd, ratFloor_eq, round_eq]

/-- On a list sorted by timestamp, dropping the prefix below `a` is the
same as discarding every row below `a`. -/
lemma dropWhile_lt_eq_filter {a : ℤ} : ∀ {l : List Row}, l.Sorted tsLE →
    l.dropWhile (fun r => decide (r.ts < a)) = l.filter (fun r => decide (a ≤ r.ts))
  | [], _ => rfl
  | r :: t, h => by
    rcases List.sorted_cons.mp h with ⟨hr, ht⟩
    by_cases hra : r.ts < a
    · rw [List.dropWhile_cons_of_pos (by simpa using hra),
        List.filter_cons_of_neg (by simpa using hra)]
      exact dropWhile_lt_eq_filter ht
    · rw [List.dropWhile_cons_of_neg (by simpa using hra),
        List.filter_cons_of_pos (by simpa using not_lt.mp hra)]
      have : List.filter (fun r => decide (a ≤ r.ts)) t = t :=
        List.filter_eq_self.mpr fun x hx => by
          simpa using le_trans (not_lt.mp hra) (hr x hx)
      rw [this]

/-- On a list sorted by timestamp, taking the prefix up to `b` is the
same as keeping every row up to `b`. -/
lemma takeWhile_le_eq_filter {b : ℤ} : ∀ {l : List Row}, l.Sorted tsLE →
    l.takeWhile (fun r => decide (r.ts ≤ b)) = l.filter (fun r => decide (r.ts ≤ b))
  | [], _ => rfl
  | r :: t, h => by
    rcases List.sorted_cons.mp h with ⟨hr, ht⟩
    by_cases hrb : r.ts ≤ b
    · rw [List.takeWhile_cons_of_pos (by simpa using hrb),
        List.filter_cons_of_pos (by simpa using hrb)]
      rw [takeWhile_le_eq_filter ht]
    · rw [List.takeWhile_cons_of_neg (by simpa using hrb),
        List.filter_cons_of_neg (by simpa using hrb)]
      have : List.filter (fun r => decide (r.ts ≤ b)) t = [] :=
        List.filter_eq_nil_iff.mpr fun x hx => by
          have := hr x hx
          simp only [decide_eq_true_eq]
          intro hxb
          exact hrb (le_trans this hxb)
      rw [this]

/-- The inclusive slice of a sorted dataframe is the filter to the
inclusive timestamp window. -/
lemma locSlice_eq_filter {a b : ℤ} {l : List Row} (h : l.Sorted tsLE) :
    locSlice a b l = l.filter (fun r => decide (a ≤ r.ts) && decide (r.ts ≤ b)) := by
  rw [locSlice, dropWhile_lt_eq_filter h,
    takeWhile_le_eq_filter (List.Pairwise.sublist (List.filter_sublist l) h),
    List.filter_filter]
  exact List.filter_congr fun x _ => by rw [Bool.and_comm]

/-- Closed form of `filter_time` on a non-empty series. -/
lemma filter_time_cons (r0 : Row) (rest : List Row) (days : ℤ) :
    filter_time (r0 :: rest) days =
      .ok ((sort_index (r0 :: rest)).filter
        (fun r => decide ((dateOf r0.ts - days) * DAY ≤ r.ts) &&
          decide (r.ts ≤ dateOf r0.ts * DAY))) := by
  rw [filter_time]
  exact congrArg Except.ok (locSlice_eq_filter (sorted_sort_index _))

/-- Membership in a `filter_time` result. -/
lemma mem_filter_time {r0 : Row} {rest : List Row} {days : ℤ} {L : List Row}
    (hL : filter_time (r0 :: rest) days = .ok L) (r : Row) :
    r ∈ L ↔ r ∈ r0 :: rest ∧
      (dateOf r0.ts - days) * DAY ≤ r.ts ∧ r.ts ≤ dateOf r0.ts * DAY := by
  rw [filter_time_cons] at hL
  cases hL
  simp [List.mem_filter, mem_sort_index, and_assoc]

/-- A `filter_time` result is sorted ascending by timestamp. -/
lemma sorted_filter_time {S L : List Row} {days : ℤ}
    (hL : filter_time S days = .ok L) : L.Sorted tsLE := by
  cases S with
  | nil => cases hL
  | cons r0 rest =>
    rw [filter_time_cons] at hL
    cases hL
    exact List.Pairwise.sublist (List.filter_sublist _) (sorted_sort_index _)

/-- Every element of the fold list is bounded by the running maximum,
and so is the start value. -/
lemma le_foldl_max : ∀ (xs : List ℚ) (x : ℚ),
    x ≤ xs.foldl max x ∧ ∀ v ∈ xs, v ≤ xs.foldl max x
  | [], x => ⟨le_refl x, by simp⟩
  | y :: ys, x => by
    have ih := le_foldl_max ys (max x y)
    refine ⟨le_trans (le_max_left x y) ih.1, ?_⟩
    intro v hv
    rcases List.mem_cons.mp hv with h | h
    · subst h
      exact le_trans (le_max_right x v) ih.1
    · exact ih.2 v h

/-- Every element of the fold list bounds the running minimum, and so
does the start value. -/
lemma foldl_min_le : ∀ (xs : List ℚ) (x : ℚ),
    xs.foldl min x ≤ x ∧ ∀ v ∈ xs, xs.foldl min x ≤ v
  | [], x => ⟨le_refl x, by simp⟩
  | y :: ys, x => by
    have ih := foldl_min_le ys (min x y)
    refine ⟨le_trans ih.1 (min_le_left x y), ?_⟩
    intro v hv
    rcases List.mem_cons.mp hv with h | h
    · subst h
      exact le_trans ih.1 (min_le_right x v)
    · exact ih.2 v h

/-- A computed `series.max()` bounds every column value from above. -/
lemma le_seriesMax {l : List ℚ} {m : ℚ} (h : seriesMax l = some m) :
    ∀ v ∈ l, v ≤ m := by
  cases l with
  | nil => cases h
  | cons x xs =>
    cases h
    intro v hv
    rcases List.mem_cons.mp hv with h | h
    · subst h
      exact (le_foldl_max xs v).1
    · exact (le_foldl_max xs x).2 v h

/-- A computed `series.min()` bounds every column value from below. -/
lemma seriesMin_le {l : List ℚ} {m : ℚ} (h : seriesMin l = some m) :
    ∀ v ∈ l, m ≤ v := by
  cases l with
  | nil => cases h
  | cons x xs =>
    cases h
    intro v hv
    rcases List.mem_cons.mp hv with h | h
    · subst h
      exact (foldl_min_le xs v).1
    · exact (foldl_min_le xs x).2 v h

/-- A one-decimal label value differs from the labelled quantity by at
most half of the last displayed digit. -/
lemma fmt1_bounds (q : ℚ) : q - 1 / 20 ≤ fmt1 q ∧ fmt1 q ≤ q + 1 / 20 := by
  rw [fmt1, rnd_eq_round]
  have h := abs_sub_round (10 * q)
  rw [abs_le] at h
  constructor
  · have := h.2
    linarith
  · have := h.1
    linarith

/-! ## Claims -/

/-- C1, counterexample: a series whose only (hence most recent) record
lies in its anchor day but after midnight (10:00).  Its calendar date
equals `last_day`, so with `days = 0` the claim requires the record in
the output, yet `filter_time` returns the empty slice: the `.loc` upper
bound is midnight of `last_day`, not the end of that day. -/
theorem C1_cex :
    filter_time [mkRow 36000] 0 = .ok ([] : List Row) ∧
    dateOf (mkRow 36000).ts - 0 ≤ dateOf (mkRow 36000).ts ∧
    dateOf (mkRow 36000).ts ≤ dateOf (mkRow 36000).ts ∧
    mkRow 36000 ∉ ([] : List Row) := by decide

/-- C1, amended: for a non-empty series whose first element (in input
order) is the most recent record and any `days ≥ 0`, `filter_time`
returns without error a list that is sorted ascending by timestamp, is
a sublist of the sorted input (which is a permutation of `S`), and
contains exactly the records whose timestamp lies in the inclusive
window from midnight of `last_day - days` to midnight of `last_day` —
not all records whose calendar date lies in `[last_day - days,
last_day]`: records of the anchor day falling after midnight are
dropped. -/
theorem C1_filter_time_window (r0 : Row) (rest : List Row) (days : ℤ)
    (hrec : ∀ x ∈ r0 :: rest, x.ts ≤ r0.ts) (hd : 0 ≤ days) :
    ∃ L, filter_time (r0 :: rest) days = .ok L ∧
      L.Sorted tsLE ∧
      L.Sublist (sort_index (r0 :: rest)) ∧
      (sort_index (r0 :: rest)).Perm (r0 :: rest) ∧
      ∀ r, r ∈ L ↔ r ∈ r0 :: rest ∧
        (dateOf r0.ts - days) * DAY ≤ r.ts ∧ r.ts ≤ dateOf r0.ts * DAY := by
  refine ⟨_, filter_time_cons r0 rest days, ?_, ?_, perm_sort_index _, ?_⟩
  · exact List.Pairwise.sublist (List.filter_sublist _) (sorted_sort_index _)
  · exact List.filter_sublist _
  · exact mem_filter_time (filter_time_cons r0 rest days)

/-- C1, witness: the amended theorem at the singleton midnight series
`[mkRow 0]` with `days = 0`. -/
theorem C1_witness :
    ∃ L, filter_time [mkRow 0] 0 = .ok L ∧
      L.Sorted tsLE ∧
      L.Sublist (sort_index [mkRow 0]) ∧
      (sort_index [mkRow 0]).Perm [mkRow 0] ∧
      ∀ r, r ∈ L ↔ r ∈ [mkRow 0] ∧
        (dateOf (mkRow 0).ts - 0) * DAY ≤ r.ts ∧ r.ts ≤ dateOf (mkRow 0).ts * DAY :=
  C1_filter_time_window (mkRow 0) [] 0 (by decide) (by decide)

/-- C2, counterexample: refiltering re-anchors at the earliest record of
the sorted output.  `S` holds day 10 and day 3 (most recent first);
`days = 7` keeps both, but a second application anchors at day 3 and
drops the day-10 record, so the twice-filtered set is strictly
smaller. -/
theorem C2_cex :
    filter_time [mkRow (10 * 86400), mkRow (3 * 86400)] 7 =
      .ok [mkRow (3 * 86400), mkRow (10 * 86400)] ∧
    filter_time [mkRow (3 * 86400), mkRow (10 * 86400)] 7 =
      .ok [mkRow (3 * 86400)] ∧
    mkRow (10 * 86400) ∈ [mkRow (3 * 86400), mkRow (10 * 86400)] ∧
    mkRow (10 * 86400) ∉ [mkRow (3 * 86400)] := by decide

/-- C2, amended: applying `filter_time` twice with the same `days` yields
a subset — not in general the same set — of the records of a single
application: the second pass anchors at the earliest record of the
(ascending-sorted) first result and can only drop records. -/
theorem C2_refilter_subset (S : List Row) (days : ℤ) (L L2 : List Row)
    (h1 : filter_time S days = .ok L) (h2 : filter_time L days = .ok L2) :
    ∀ r ∈ L2, r ∈ L := by
  cases L with
  | nil => cases h2
  | cons x xs =>
    intro r hr
    exact ((mem_filter_time h2 r).mp hr).1

/-- C2, witness: the amended theorem at the two-day series of the
counterexample, instantiated at the surviving day-3 record. -/
theorem C2_witness :
    filter_time [mkRow (10 * 86400), mkRow (3 * 86400)] 7 =
      .ok [mkRow (3 * 86400), mkRow (10 * 86400)] ∧
    filter_time [mkRow (3 * 86400), mkRow (10 * 86400)] 7 =
      .ok [mkRow (3 * 86400)] ∧
    mkRow (3 * 86400) ∈ [mkRow (3 * 86400), mkRow (10 * 86400)] :=
  ⟨by decide, by decide,
    C2_refilter_subset [mkRow (10 * 86400), mkRow (3 * 86400)] 7
      [mkRow (3 * 86400), mkRow (10 * 86400)] [mkRow (3 * 86400)]
      (by decide) (by decide) (mkRow (3 * 86400)) (by decide)⟩

/-- C3, confirmed: enlarging the lookback window only enlarges the
result — the smaller-window result is a sublist (hence a subsequence,
record by record) of the larger-window result, both anchored at the
same `last_day` of the same series. -/
theorem C3_window_monotone (S : List Row) (days1 days2 : ℤ) (h0 : 0 ≤ days1)
    (h12 : days1 < days2) (L1 L2 : List Row)
    (hf1 : filter_time S days1 = .ok L1) (hf2 : filter_time S days2 = .ok L2) :
    L1.Sublist L2 := by
  cases S with
  | nil => cases hf1
  | cons r0 rest =>
    rw [filter_time_cons] at hf1 hf2
    cases hf1
    cases hf2
    refine List.monotone_filter_right _ ?_
    intro r hr
    simp only [Bool.and_eq_true, decide_eq_true_eq] at hr ⊢
    refine ⟨le_trans ?_ hr.1, hr.2⟩
    have h : dateOf r0.ts - days2 ≤ dateOf r0.ts - days1 := by omega
    exact mul_le_mul_of_nonneg_right h (le_of_lt DAY_pos)

/-- C3, witness: windows of 0 and 1 days over a two-day series. -/
theorem C3_witness :
    (0 : ℤ) ≤ 0 ∧ (0 : ℤ) < 1 ∧
    filter_time [mkRow 86400, mkRow 0] 0 = .ok [mkRow 86400] ∧
    filter_time [mkRow 86400, mkRow 0] 1 = .ok [mkRow 0, mkRow 86400] ∧
    [mkRow 86400].Sublist [mkRow 0, mkRow 86400] :=
  ⟨by decide, by decide, by decide, by decide,
    C3_window_monotone [mkRow 86400, mkRow 0] 0 1 (by decide) (by decide)
      [mkRow 86400] [mkRow 0, mkRow 86400] (by decide) (by decide)⟩

/-- C6, counterexample: on the empty series `filter_time` raises the
`IndexError` coming from `df.index[0]`; the code defines no
`EmptyInputError` anywhere, so the error is not the defined
`EmptyInputError` the claim names. -/
theorem C6_cex :
    filter_time ([] : List Row) 0 = .error .indexError ∧
    PyErr.indexError ≠ PyErr.emptyInputError := by decide

/-- C6, amended: on the empty series `filter_time` fails fast and
produces no result, but via an uncaught `IndexError` from indexing the
empty index, not via a defined `EmptyInputError` (no such type exists
in the code). -/
theorem C6_empty_input_fails (days : ℤ) :
    filter_time ([] : List Row) days = .error .indexError := rfl

/-- C7, counterexample: a singleton series at 10:00 of day 5 with
`days = 1`.  `start_day = 4` precedes the date of the earliest record
(day 5), so the claim requires the slice to start at that earliest
record, yet the result is empty: the record sits after midnight of
`last_day` and the upper bound already drops it. -/
theorem C7_cex :
    dateOf (mkRow (5 * 86400 + 36000)).ts - 1 <
      dateOf (mkRow (5 * 86400 + 36000)).ts ∧
    filter_time [mkRow (5 * 86400 + 36000)] 1 = .ok ([] : List Row) ∧
    mkRow (5 * 86400 + 36000) ∉ ([] : List Row) := by decide

/-- C7, amended: when `start_day` precedes the calendar date of every
record, the lower bound truncates nothing and no error is raised: the
result is exactly the ascending-sorted series cut only by the upper
bound, i.e. the records with timestamp up to midnight of `last_day`
(which can still drop records of the anchor day, the anchor record
included). -/
theorem C7_no_lower_truncation (r0 : Row) (rest : List Row) (days : ℤ)
    (hstart : ∀ r ∈ r0 :: rest, dateOf r0.ts - days < dateOf r.ts) :
    filter_time (r0 :: rest) days =
      .ok ((sort_index (r0 :: rest)).filter
        (fun r => decide (r.ts ≤ dateOf r0.ts * DAY))) := by
  rw [filter_time_cons]
  refine congrArg Except.ok (List.filter_congr ?_)
  intro r hr
  have hmem : r ∈ r0 :: rest := mem_sort_index.mp hr
  have h1 : dateOf r0.ts - days + 1 ≤ dateOf r.ts := by
    have := hstart r hmem
    omega
  have h2 : (dateOf r0.ts - days + 1) * DAY ≤ r.ts := le_dateOf_iff.mp h1
  have hexp : (dateOf r0.ts - days + 1) * DAY =
      (dateOf r0.ts - days) * DAY + DAY := by ring
  have h3 : (dateOf r0.ts - days) * DAY ≤ r.ts := by
    have := DAY_pos
    linarith
  rw [decide_eq_true h3, Bool.true_and]

/-- C7, witness: the amended theorem at a singleton midnight series with
a window reaching one day further back. -/
theorem C7_witness :
    filter_time [mkRow (5 * 86400)] 1 =
      .ok ((sort_index [mkRow (5 * 86400)]).filter
        (fun r => decide (r.ts ≤ dateOf (mkRow (5 * 86400)).ts * DAY))) :=
  C7_no_lower_truncation (mkRow (5 * 86400)) [] 1 (by decide)

/-- C10, counterexample: the anchor record sits at midnight of day 0 and
a second record of the same calendar day sits at 10:00.  The claim says
the 10:00 record must be returned (its date equals the anchor date);
`filter_time` with `days = 0` drops it. -/
theorem C10_cex :
    dateOf (mkRow 36000).ts = dateOf (mkRow 0).ts ∧
    (mkRow 0).ts < (mkRow 36000).ts ∧
    filter_time [mkRow 0, mkRow 36000] 0 = .ok [mkRow 0] ∧
    mkRow 36000 ∉ [mkRow 0] := by decide

/-- C10, amended: the upper bound of the window is midnight (00:00) of
the anchor calendar day, not the end of that day: a record of the
series whose calendar date equals the anchor date is returned iff its
timestamp is exactly the midnight timestamp of that day. -/
theorem C10_midnight_upper_bound (r0 : Row) (rest : List Row) (days : ℤ)
    (hd : 0 ≤ days) (r : Row) (hr : r ∈ r0 :: rest)
    (hdate : dateOf r.ts = dateOf r0.ts) (L : List Row)
    (hL : filter_time (r0 :: rest) days = .ok L) :
    r ∈ L ↔ r.ts = dateOf r0.ts * DAY := by
  rw [mem_filter_time hL r]
  have hlow : dateOf r0.ts * DAY ≤ r.ts := by
    have h := dateOf_mul_DAY_le r.ts
    rw [hdate] at h
    exact h
  constructor
  · rintro ⟨-, -, hub⟩
    exact le_antisymm hub hlow
  · intro heq
    refine ⟨hr, ?_, le_of_eq heq⟩
    have h' : dateOf r0.ts - days ≤ dateOf r0.ts := by omega
    exact le_trans (mul_le_mul_of_nonneg_right h' (le_of_lt DAY_pos)) hlow

/-- C10, witness: the amended theorem at the counterexample series, for
the midnight record. -/
theorem C10_witness :
    mkRow 0 ∈ [mkRow 0] ↔ (mkRow 0).ts = dateOf (mkRow 0).ts * DAY :=
  C10_midnight_upper_bound (mkRow 0) [mkRow 36000] 0 (by decide) (mkRow 0)
    (by decide) (by decide) [mkRow 0] (by decide)

/-- C4, confirmed: for any ticker data pair and any window index 0–6,
`filter_df` selects the intraday series iff the index is ≤ 2 and the
daily series otherwise; index 6 returns the chosen series unfiltered,
and every other index applies `filter_time` with the day count from the
mapping {0:1, 1:7, 2:30, 3:90, 4:365, 5:1825}. -/
theorem C4_filter_df_wiring (daily intraday : List Row) (i : ℕ) (hi6 : i ≤ 6) :
    filter_df daily intraday i =
      if i = 6 then .ok (if i ≤ 2 then intraday else daily)
      else filter_time (if i ≤ 2 then intraday else daily) (spec_window_days i) := by
  interval_cases i <;> rfl

/-- C4, witness: index 6 with concrete series returns the daily series
unfiltered. -/
theorem C4_witness :
    (6 : ℕ) ≤ 6 ∧ filter_df [mkRow 0] [] 6 = .ok [mkRow 0] := by
  refine ⟨by decide, ?_⟩
  rw [C4_filter_df_wiring [mkRow 0] [] 6 (by decide)]
  rfl

/-- C8, confirmed: running `filter_time` with the caller series as
explicit state leaves that state unchanged — same records, same values,
same order — while returning the same value as the functional model,
and every successful result is a new sequence sorted ascending by
timestamp. -/
theorem C8_no_mutation (s : List Row) (days : ℤ) :
    ((filter_time_prog days).run s).2 = s ∧
    ((filter_time_prog days).run s).1 = filter_time s days ∧
    ∀ L, filter_time s days = .ok L → L.Sorted tsLE := by
  refine ⟨?_, ?_, fun L hL => sorted_filter_time hL⟩
  · cases s <;> rfl
  · cases s <;> rfl

/-- C8, witness: the theorem at a singleton series with `days = 0`. -/
theorem C8_witness :
    ((filter_time_prog 0).run [mkRow 0]).2 = [mkRow 0] ∧
    filter_time [mkRow 0] 0 = .ok [mkRow 0] ∧
    List.Sorted tsLE [mkRow 0] :=
  ⟨(C8_no_mutation [mkRow 0] 0).1, by decide,
    (C8_no_mutation [mkRow 0] 0).2.2 [mkRow 0] (by decide)⟩

/-- Concrete label computation: a column holding only `7.24` is labelled
`7.2 $` both as highest and as lowest value. -/
lemma hlv_724 :
    highest_lowest_value [⟨0, 0, 0, 0, 181 / 25, 0⟩] .cl =
      some (36 / 5, 36 / 5) := by
  have h1 : fmt1 (181 / 25) = 36 / 5 := by
    rw [fmt1, rnd_eq_round, round_eq]
    norm_num
  simp [highest_lowest_value, column, seriesMax, seriesMin, Row.field, h1]

/-- C5, counterexample: on the dataset whose only `close` value is
`7.24`, the max label reads `7.2 $`, and `7.24 ≤ 7.2` is false — the
displayed max does not bound the column values from above, because the
one-decimal formatting rounds downward. -/
theorem C5_cex :
    highest_lowest_value [⟨0, 0, 0, 0, 181 / 25, 0⟩] .cl =
      some (36 / 5, 36 / 5) ∧
    (181 / 25 : ℚ) ∈ column [⟨0, 0, 0, 0, 181 / 25, 0⟩] .cl ∧
    ¬(181 / 25 : ℚ) ≤ 36 / 5 := by
  refine ⟨hlv_724, ?_, by norm_num⟩
  simp [column, Row.field]

/-- C5, amended: the displayed min and max labels bound every value of
the filtered field column up to the one-decimal rounding error: for
every column value `v`, `min_label ≤ v + 0.05` and
`v - 0.05 ≤ max_label`. -/
theorem C5_labels_bound (df : List Row) (f : OHLC) (a b : ℚ)
    (h : highest_lowest_value df f = some (a, b)) :
    ∀ v ∈ column df f, b ≤ v + 1 / 20 ∧ v - 1 / 20 ≤ a := by
  unfold highest_lowest_value at h
  rcases hM : seriesMax (column df f) with _ | M <;> rw [hM] at h
  · simp at h
  · rcases hm : seriesMin (column df f) with _ | m <;> rw [hm] at h
    · simp at h
    · simp only [Option.some.injEq, Prod.mk.injEq] at h
      obtain ⟨ha, hb⟩ := h
      subst ha
      subst hb
      intro v hv
      have hvM : v ≤ M := le_seriesMax hM v hv
      have hmv : m ≤ v := seriesMin_le hm v hv
      have bM := fmt1_bounds M
      have bm := fmt1_bounds m
      exact ⟨by linarith [bm.2], by linarith [bM.1]⟩

/-- C5, witness: the amended bounds at the `7.24` dataset. -/
theorem C5_witness :
    highest_lowest_value [⟨0, 0, 0, 0, 181 / 25, 0⟩] .cl =
      some (36 / 5, 36 / 5) ∧
    ∀ v ∈ column [⟨0, 0, 0, 0, 181 / 25, 0⟩] .cl,
      (36 / 5 : ℚ) ≤ v + 1 / 20 ∧ v - 1 / 20 ≤ 36 / 5 :=
  ⟨hlv_724, C5_labels_bound _ _ _ _ hlv_724⟩

/-- Composed round trip through the intermediate JSON store: timestamps
survive exactly, numeric values come back rounded to ten decimal
places. -/
lemma read_to_json (L : List Row) :
    read_json (to_json L) = L.map (fun r =>
      ⟨r.ts, round10 r.op, round10 r.hi, round10 r.lo, round10 r.cl,
        round10 r.vol⟩) := by
  rw [read_json, to_json, List.map_map]
  refine List.map_congr_left ?_
  intro r _
  simp only [Function.comp]
  congr 1
  exact Int.mul_ediv_cancel r.ts (by decide)

/-- C9, counterexample: a daily series whose `open` value is `1/3`
(a value needing more than ten decimal places) is produced unfiltered
by `filter_df` at window index 6, yet deserializing its serialization
does not return the same dataset: `to_json` writes floats with ten
decimal places (`double_precision=10`). -/
theorem C9_cex :
    filter_df [⟨0, 1 / 3, 0, 0, 0, 0⟩] [] 6 = .ok [⟨0, 1 / 3, 0, 0, 0, 0⟩] ∧
    read_json (to_json [⟨0, 1 / 3, 0, 0, 0, 0⟩]) ≠ [⟨0, 1 / 3, 0, 0, 0, 0⟩] := by
  refine ⟨rfl, ?_⟩
  have hne : round10 (1 / 3) ≠ (1 / 3 : ℚ) := by
    rw [round10, rnd_eq_round, round_eq]
    norm_num
  rw [read_to_json]
  simp only [List.map_cons, List.map_nil, ne_eq, List.cons.injEq, Row.mk.injEq]
  intro h
  exact hne h.1.2.1

/-- C9, amended: the round trip through the intermediate JSON store
preserves the timestamps exactly, and it is the identity on the whole
dataset exactly when every numeric value is representable with ten
decimal places (the `to_json` default `double_precision=10`); values
needing more decimal places are not preserved. -/
theorem C9_roundtrip (L : List Row) :
    (read_json (to_json L)).map Row.ts = L.map Row.ts ∧
    ((∀ r ∈ L, dec10 r) → read_json (to_json L) = L) := by
  rw [read_to_json]
  constructor
  · rw [List.map_map]
    rfl
  · intro h
    conv_rhs => rw [← List.map_id L]
    refine List.map_congr_left ?_
    intro r hr
    obtain ⟨h1, h2, h3, h4, h5⟩ := h r hr
    cases r
    simp_all [dec10]

/-- C9, witness: the amended round trip at a singleton dataset whose
values all have at most ten decimal places. -/
theorem C9_witness :
    (∀ r ∈ [mkRow 5], dec10 r) ∧ read_json (to_json [mkRow 5]) = [mkRow 5] := by
  have h0 : round10 0 = (0 : ℚ) := by
    rw [round10, rnd_eq_round, round_eq]
    norm_num
  have hd : ∀ r ∈ [mkRow 5], dec10 r := by
    intro r hr
    rw [List.mem_singleton] at hr
    subst hr
    exact ⟨h0, h0, h0, h0, h0⟩
  exact ⟨hd, (C9_roundtrip [mkRow 5]).2 hd⟩
